import Mathlib

/-!
Shallow embedding of `nornir_table_inventory/plugins/inventory/table.py`:
the normalization engine that turns flat tabular rows into an inventory of
Host records.  Each Lean definition mirrors one Python function of the
source file; theorems at the end settle the specification claims.
-/

set_option autoImplicit false

deriving instance DecidableEq for Except

namespace TableInv

/-- A raw cell value as produced by the row sources.  Per the spec's data
model a raw value is one of: the absence marker (Python `None`), the
floating-point not-a-number sentinel (`float("nan")`), a string, an
integer, or a boolean.  `nan` is kept as its own constructor because the
source's `_empty` singles it out via `isinstance(x, float) and isnan(x)`;
other (non-NaN) floats play no role in any claim and are not modelled.
-/
inductive RawValue where
  | none_ : RawValue
  | nan : RawValue
  | str : String → RawValue
  | int : Int → RawValue
  | bool : Bool → RawValue
  deriving DecidableEq, Repr

/-- Python truthiness (`if x:`) restricted to the modelled raw values:
`None`, `""`, `0` and `False` are falsy; NaN, non-empty strings,
non-zero integers and `True` are truthy.
-/
def truthy : RawValue → Bool
  | .none_ => false
  | .nan => true
  | .str s => s ≠ ""
  | .int n => n ≠ 0
  | .bool b => b

/-- Python `str(x)` on the modelled raw values: `str(None) = "None"`,
`str(float("nan")) = "nan"`, strings are unchanged, integers print in
decimal (with a leading `-` when negative), booleans print as
`True`/`False`.
-/
def pyStr : RawValue → String
  | .none_ => "None"
  | .nan => "nan"
  | .str s => s
  | .int n => toString n
  | .bool b => if b then "True" else "False"

/-- ASCII lower-casing of one character (Python `str.lower()` on the
characters that occur in the modelled values). -/
def toLowerCh (c : Char) : Char :=
  if 'A' ≤ c ∧ c ≤ 'Z' then Char.ofNat (c.toNat + 32) else c

/-- Python `s.lower()`. -/
def strLower (s : String) : String :=
  ⟨s.data.map toLowerCh⟩

/-- Whitespace for Python `str.strip()` as used by `int(str)`. -/
def isPySpace (c : Char) : Bool :=
  c = ' ' ∨ c = '\t' ∨ c = '\n' ∨ c = '\x0d' ∨ c = '\x0b' ∨ c = '\x0c'

/-- Strip leading and trailing whitespace from a character list. -/
def trimChars (l : List Char) : List Char :=
  ((l.dropWhile isPySpace).reverse.dropWhile isPySpace).reverse

/-- Decimal digit test. -/
def isDigitCh (c : Char) : Bool :=
  '0' ≤ c ∧ c ≤ '9'

/-- Value of a run of decimal digits, most significant first. -/
def digitsToNat (l : List Char) : Nat :=
  l.foldl (fun acc c => acc * 10 + (c.toNat - '0'.toNat)) 0

/-- Python `int(s)` for a string: surrounding whitespace is stripped, then an
optional sign followed by a non-empty run of decimal digits is accepted;
anything else raises `ValueError` (`none` here).
-/
def parsePyInt (s : String) : Option Int :=
  match trimChars s.data with
  | [] => none
  | '-' :: rest =>
      if rest ≠ [] ∧ rest.all isDigitCh then some (-(digitsToNat rest : Int)) else none
  | '+' :: rest =>
      if rest ≠ [] ∧ rest.all isDigitCh then some (digitsToNat rest : Int) else none
  | l =>
      if l.all isDigitCh then some (digitsToNat l : Int) else none

/-- Python `int(x)` on the modelled raw values, `none` meaning the call
raises (`TypeError` for `None`, `ValueError` for NaN or an unparseable
string).  `int(True) = 1`, `int(False) = 0`.
-/
def pyInt : RawValue → Option Int
  | .none_ => none
  | .nan => none
  | .str s => parsePyInt s
  | .int n => some n
  | .bool b => some (if b then 1 else 0)

/-- Predicate `_empty` (table.py line 21): true iff the value is `None`, a float NaN,
or compares equal to the empty string.  In Python, `x == ""` is `False`
for every non-string `x` among the modelled values (numbers, booleans,
`None` and NaN never compare equal to a string), so only the empty
string itself satisfies the last disjunct.
-/
def _empty : RawValue → Bool
  | .none_ => true
  | .nan => true
  | .str s => s = ""
  | .int _ => false
  | .bool _ => false

/-- A row: ordered mapping from column name to raw cell value. -/
def Row := List (String × RawValue)

instance : DecidableEq Row := inferInstanceAs (DecidableEq (List (String × RawValue)))

instance : Repr Row := inferInstanceAs (Repr (List (String × RawValue)))

instance : Membership (String × RawValue) Row :=
  inferInstanceAs (Membership (String × RawValue) (List (String × RawValue)))

instance (p : String × RawValue) (r : Row) : Decidable (p ∈ r) :=
  inferInstanceAs (Decidable (p ∈ (show List (String × RawValue) from r)))

/-- Python `dict.get(k)` without a default: first binding of `k`, if any. -/
def rowGet? : Row → String → Option RawValue
  | [], _ => none
  | (k, v) :: rest, key => if k = key then some v else rowGet? rest key

/-- Python `dict.get(k, d)`: the binding of `k`, or the default `d`. -/
def rowGetD (r : Row) (key : String) (d : RawValue) : RawValue :=
  (rowGet? r key).getD d

/-- Test whether `needle` is a prefix of `hay`, on character lists. -/
def isPrefixCh : List Char → List Char → Bool
  | [], _ => true
  | _ :: _, [] => false
  | a :: as, b :: bs => a = b ∧ isPrefixCh as bs

/-- Test whether `needle` occurs somewhere in `hay` (Python `needle in hay`). -/
def containsCh (hay needle : List Char) : Bool :=
  isPrefixCh needle hay ||
    match hay with
    | [] => false
    | _ :: t => containsCh t needle

/-- Left-to-right replacement of every non-overlapping occurrence of
`needle` by `repl` in `hay` (Python `hay.replace(needle, repl)` for a
non-empty `needle`), written with explicit fuel so that the kernel can
evaluate it; `fuel = hay.length` always suffices because each step
consumes at least one character of `hay`.
-/
def replaceGo (needle repl : List Char) : Nat → List Char → List Char
  | 0, hay => hay
  | _ + 1, [] => []
  | fuel + 1, c :: rest =>
      if isPrefixCh needle (c :: rest) then
        repl ++ replaceGo needle repl fuel (List.drop needle.length (c :: rest))
      else
        c :: replaceGo needle repl fuel rest

/-- Python `needle in hay` on strings. -/
def strContains (hay needle : String) : Bool :=
  containsCh hay.data needle.data

/-- Python `hay.replace(needle, repl)` on strings, for non-empty `needle`. -/
def strReplace (hay needle repl : String) : String :=
  ⟨replaceGo needle.data repl.data hay.data.length hay.data⟩

example : strContains "a_netmiko_b" "netmiko_" = true := by decide
example : strContains "site" "netmiko_" = false := by decide
example : strContains "netmiko_timeout" "netmiko_" = true := by decide
example : strReplace "a_netmiko_b" "netmiko_" "" = "a_b" := by decide
example : strReplace "netmiko_timeout" "netmiko_" "" = "timeout" := by decide
example : pyInt (.str " 30 ") = some 30 := by decide
example : pyInt (.str "") = none := by decide
example : pyInt (.str "abc") = none := by decide
example : pyInt (.str "-7") = some (-7) := by decide
example : pyStr (.int 5) = "5" := by decide

/-- A `ConnectionOptions` value (from `nornir.core.inventory`, an external
output type): the engine builds it via `_get_connection_options`, which
reads `hostname`, `port`, `username`, `password`, `platform` and
`extras` out of a plain dict with `.get` (absent keys become `None`).
Fields hold Python values; `extras` is a dict of option name to value.
-/
structure ConnectionOptions where
  hostname : RawValue
  port : RawValue
  username : RawValue
  password : RawValue
  platform : RawValue
  extras : List (String × RawValue)
  deriving DecidableEq, Repr

/-- A `Host` record (external output type): the engine passes Python values
positionally, so fields here are raw Python values, with `none_` playing
Python `None`.  `data` is the metadata dict, `connection_options` the
overlay mapping from profile name to options bundle.
-/
structure Host where
  name : RawValue
  hostname : RawValue
  port : RawValue
  username : RawValue
  password : RawValue
  platform : RawValue
  data : List (String × RawValue)
  connection_options : List (String × ConnectionOptions)
  deriving DecidableEq, Repr

/-- The six identity fields (`no_data_fields`, table.py line 41). -/
def no_data_fields : List String :=
  ["name", "hostname", "port", "username", "password", "platform"]

/-- The connection-option prefix (table.py lines 43 and 66). -/
def netmiko_prefix : String := "netmiko_"

/-- Function `_get_host_data` (table.py line 40): keep every column whose name is not
an identity field and does not contain `netmiko_` anywhere, in the row's
order; an empty value is stored as `None`, otherwise the raw value is
stored unchanged.
-/
def _get_host_data : Row → List (String × RawValue)
  | [] => []
  | (k, v) :: rest =>
      if k ∉ no_data_fields ∧ strContains k netmiko_prefix = false then
        (k, if _empty v then .none_ else v) :: _get_host_data rest
      else
        _get_host_data rest

/-- The integer-valued option names (`int_keys`, table.py line 64). -/
def int_keys : List String :=
  ["timeout", "conn_timeout", "auth_timeout", "banner_timeout",
   "blocking_timeout", "session_timeout"]

/-- The boolean-valued option names (`bool_keys`, table.py line 65). -/
def bool_keys : List String := ["fast_cli"]

/-- Insert into a Python dict modelled as an association list: replace the
value at the first occurrence of the key, else append at the end
(`d[k] = v` semantics, insertion order preserved).
-/
def dictInsert {κ α : Type} [DecidableEq κ] :
    List (κ × α) → κ → α → List (κ × α)
  | [], key, v => [(key, v)]
  | (k, w) :: rest, key, v =>
      if k = key then (key, v) :: rest else (k, w) :: dictInsert rest key v

/-- Lookup in a Python dict modelled as an association list. -/
def dictGet? {κ α : Type} [DecidableEq κ] : List (κ × α) → κ → Option α
  | [], _ => none
  | (k, v) :: rest, key => if k = key then some v else dictGet? rest key

/-- A raised Python exception, by site. -/
inductive PyError where
  /-- Python `int(v)` raised while coercing an integer-valued option or `port`. -/
  | intCoercion : PyError
  /-- Statement `raise Exception("HOST name must not be empty")` after logging the
  row; the offending row (the logged payload) is carried along. -/
  | hostNameEmpty : Row → PyError
  /-- Lookup `host_dict["name"]` raised `KeyError`: the row has no `name` column
  at all. -/
  | nameKeyMissing : Row → PyError
  /-- Reading `self.hosts_list` raised `AttributeError`: the attribute was never
  assigned on the object. -/
  | attributeMissing : PyError
  deriving DecidableEq, Repr

/-- The `extra_opts` dict built by the loop of `_get_host_netmiko_options`
(table.py lines 67-83): every column containing `netmiko_` is routed
here under the column name with all occurrences of the prefix removed
(`k.replace(netmiko_prefix, "")`); integer keys coerce with `int(v)`
(which can raise — no emptiness check on this branch), boolean keys map
`str(v).lower() ∈ \x7b"0", "false", "none"\x7d` to `False` and everything
else to `True`, and all other keys store `None` when empty, the raw
value otherwise.
-/
def netmikoExtraOptsGo (acc : List (String × RawValue)) :
    Row → Except PyError (List (String × RawValue))
  | [] => .ok acc
  | (k, v) :: rest =>
      if strContains k netmiko_prefix then
        let new_k := strReplace k netmiko_prefix ""
        if new_k ∈ int_keys then
          match pyInt v with
          | none => .error .intCoercion
          | some n => netmikoExtraOptsGo (dictInsert acc new_k (.int n)) rest
        else if new_k ∈ bool_keys then
          let b : Bool := strLower (pyStr v) ∉ ["0", "false", "none"]
          netmikoExtraOptsGo (dictInsert acc new_k (.bool b)) rest
        else
          netmikoExtraOptsGo
            (dictInsert acc new_k (if _empty v then .none_ else v)) rest
      else
        netmikoExtraOptsGo acc rest

/-- The `extra_opts` loop started on the empty dict. -/
def netmikoExtraOpts (data : Row) : Except PyError (List (String × RawValue)) :=
  netmikoExtraOptsGo [] data

/-- Function `_get_connection_options` (table.py line 26) applied to the singleton
dict `{"netmiko": {"extras": extra_opts}}` built at table.py line 86:
each absent field is read with `.get` and becomes `None`; only `extras`
is populated.
-/
def _get_connection_options (extra_opts : List (String × RawValue)) :
    List (String × ConnectionOptions) :=
  [("netmiko",
    { hostname := .none_, port := .none_, username := .none_,
      password := .none_, platform := .none_, extras := extra_opts })]

/-- Function `_get_host_netmiko_options` (table.py line 50): build `extra_opts` from
the prefixed columns; if it is non-empty wrap it as the single `netmiko`
profile's `extras`, otherwise return the empty mapping.
-/
def _get_host_netmiko_options (data : Row) :
    Except PyError (List (String × ConnectionOptions)) := do
  let extra_opts ← netmikoExtraOpts data
  if extra_opts ≠ [] then
    pure (_get_connection_options extra_opts)
  else
    pure []

/-- Lines 100-101 of table.py: `if name: name = str(name)`.  A falsy value
(`None`, `""`, `0`, `False`) skips the coercion and is passed on
unchanged; any truthy value (including NaN) is stringified.
-/
def coerceName (v : RawValue) : RawValue :=
  if truthy v then .str (pyStr v) else v

/-- Lines 102-103 (and 106-111) of table.py:
`if x: x = str(x) if not _empty(x) else None`.  Only a truthy value is
examined: a truthy empty value (NaN) becomes `None`, a truthy non-empty
value is stringified, and a falsy value (`None`, `""`, `0`, `False`)
passes through unchanged.
-/
def coerceStrField (v : RawValue) : RawValue :=
  if truthy v then
    if _empty v = false then .str (pyStr v) else .none_
  else v

/-- Lines 104-105 of table.py:
`if port: port = int(port) if not _empty(port) else None`.  Same
truthiness guard; on the coercion path `int(port)` can raise.
-/
def coercePort (v : RawValue) : Except PyError RawValue :=
  if truthy v then
    if _empty v = false then
      match pyInt v with
      | none => .error .intCoercion
      | some n => .ok (.int n)
    else .ok .none_
  else .ok v

/-- Function `_get_host_obj` (table.py line 92).  Each identity value is fetched with
`data.get` (default `None`, except `port` whose default is `22`) and
passed through its truthiness-guarded coercion; `int(port)` and the
integer-valued netmiko options can raise, which propagates out of the
builder.
-/
def _get_host_obj (data : Row) : Except PyError Host := do
  let port ← coercePort (rowGetD data "port" (.int 22))
  let connection_options ← _get_host_netmiko_options data
  pure { name := coerceName (rowGetD data "name" .none_),
         hostname := coerceStrField (rowGetD data "hostname" .none_),
         port,
         username := coerceStrField (rowGetD data "username" .none_),
         password := coerceStrField (rowGetD data "password" .none_),
         platform := coerceStrField (rowGetD data "platform" .none_),
         data := _get_host_data data, connection_options }

/-- The inventory built by `load` (table.py line 143): the host dict keyed
by the raw `host_dict["name"]` value, packaged with freshly constructed
empty `Groups()` and `Defaults()` collections (modelled as the unit
fields — they carry no data).
-/
structure Inventory where
  hosts : List (RawValue × Host)
  groups : Unit := ()
  defaults : Unit := ()
  deriving DecidableEq, Repr

/-- The loop of `FlatDataInventory.load` (table.py lines 136-141):
`host_dict["name"]` is read (raising `KeyError` if the column is
missing); a non-empty name stores the built host under the raw name
value, an empty name logs the row's full content and raises.
-/
def loadGo : List Row → List (RawValue × Host) →
    Except PyError (List (RawValue × Host))
  | [], hosts => .ok hosts
  | r :: rest, hosts =>
      match rowGet? r "name" with
      | none => .error (.nameKeyMissing r)
      | some nv =>
          if _empty nv = false then
            match _get_host_obj r with
            | .error e => .error e
            | .ok h => loadGo rest (dictInsert hosts nv h)
          else
            .error (.hostNameEmpty r)

/-- Method `FlatDataInventory.load` (table.py line 131) on a row list. -/
def load (rows : List Row) : Except PyError Inventory :=
  (loadGo rows []).map fun hs => { hosts := hs }

/-- The observable state of a `FlatDataInventory` object: `hosts_list` is
`none` when the attribute was never assigned (accessing it then raises
`AttributeError`).
-/
structure FlatDataObj where
  hosts_list : Option (List Row)
  deriving DecidableEq

/-- Method `FlatDataInventory.__init__` (table.py line 128): stores the rows. -/
def FlatDataInventory_init (data : List Row) : FlatDataObj :=
  { hosts_list := some data }

/-- Method `CSVInventory.__init__` (table.py line 147): the reader parses the CSV
file into the local list `data` (one dict per data line, represented
here by the already-parsed `parsedRows`), but the method body ends
without calling `super().__init__` or assigning any attribute, so the
parsed rows are discarded and the constructed object has no
`hosts_list`.
-/
def CSVInventory_init (parsedRows : List Row) : FlatDataObj :=
  { hosts_list := (fun (_data : List Row) => none) parsedRows }

/-- Method `load` called on an object: reading `self.hosts_list` raises
`AttributeError` when the attribute was never assigned. -/
def objLoad (o : FlatDataObj) : Except PyError Inventory :=
  match o.hosts_list with
  | none => .error .attributeMissing
  | some rows => load rows

/-! ### Concrete rows and host records used to instantiate the claims -/

/-- Spec §8 test row 3: `name="R2", port=""`. -/
def rowR2 : Row := [("name", .str "R2"), ("port", .str "")]

/-- What the engine actually builds from `rowR2`: the empty-string port
is falsy, so the coercion line is skipped and `port` stays `""`. -/
def hostR2 : Host :=
  { name := .str "R2", hostname := .none_, port := .str "",
    username := .none_, password := .none_, platform := .none_,
    data := [], connection_options := [] }

/-- A row whose `name` is the integer `0`: non-empty but falsy. -/
def rowName0 : Row := [("name", .int 0)]

/-- The record built from `rowName0`: `name` stays the integer `0`. -/
def hostName0 : Host :=
  { name := .int 0, hostname := .none_, port := .int 22,
    username := .none_, password := .none_, platform := .none_,
    data := [], connection_options := [] }

/-- A minimal accepted row. -/
def rowR1s : Row := [("name", .str "R1")]

/-- The record built from `rowR1s`. -/
def hostR1s : Host :=
  { name := .str "R1", hostname := .none_, port := .int 22,
    username := .none_, password := .none_, platform := .none_,
    data := [], connection_options := [] }

/-- First of two rows sharing the name `R1`. -/
def rowDupA : Row := [("name", .str "R1"), ("site", .str "A")]

/-- Second of two rows sharing the name `R1`. -/
def rowDupB : Row := [("name", .str "R1"), ("site", .str "B")]

/-- The record built from `rowDupB` (the later duplicate). -/
def hostDupB : Host :=
  { name := .str "R1", hostname := .none_, port := .int 22,
    username := .none_, password := .none_, platform := .none_,
    data := [("site", .str "B")], connection_options := [] }

/-- A row that `load` processes without raising: its `name` column is
present and non-empty, and the host object builds without a coercion
error. -/
def rowOk (r : Row) : Prop :=
  ∃ nv h, rowGet? r "name" = some nv ∧ _empty nv = false ∧
    _get_host_obj r = .ok h

/-! ## Helper lemmas -/

lemma mem_dictInsert {κ α : Type} [DecidableEq κ] (l : List (κ × α))
    (key : κ) (v : α) (p : κ × α) :
    p ∈ dictInsert l key v → p = (key, v) ∨ p ∈ l := by
  induction l with
  | nil => intro hp; simpa [dictInsert] using hp
  | cons kv rest ih =>
      obtain ⟨k, w⟩ := kv
      intro hp
      by_cases hk : k = key
      · subst hk
        simp only [dictInsert, if_true, eq_self_iff_true, List.mem_cons] at hp
        rcases hp with hp | hp
        · exact Or.inl hp
        · exact Or.inr (List.mem_cons_of_mem _ hp)
      · simp only [dictInsert, if_neg hk, List.mem_cons] at hp
        rcases hp with hp | hp
        · exact Or.inr (by simp [hp])
        · rcases ih hp with h | h
          · exact Or.inl h
          · exact Or.inr (List.mem_cons_of_mem _ h)

lemma self_mem_dictInsert {κ α : Type} [DecidableEq κ] (l : List (κ × α))
    (key : κ) (v : α) : (key, v) ∈ dictInsert l key v := by
  induction l with
  | nil => simp [dictInsert]
  | cons kv rest ih =>
      obtain ⟨k, w⟩ := kv
      by_cases hk : k = key
      · simp [dictInsert, hk]
      · simp only [dictInsert, if_neg hk]
        exact List.mem_cons_of_mem _ ih

lemma mem_dictInsert_of_mem {κ α : Type} [DecidableEq κ] (l : List (κ × α))
    (key : κ) (v : α) (p : κ × α) (hne : p.1 ≠ key) :
    p ∈ l → p ∈ dictInsert l key v := by
  induction l with
  | nil => intro hp; cases hp
  | cons kv rest ih =>
      obtain ⟨k, w⟩ := kv
      intro hp
      by_cases hk : k = key
      · subst hk
        simp only [dictInsert, if_pos rfl]
        rcases List.mem_cons.1 hp with hp | hp
        · exact absurd (congrArg Prod.fst hp) hne
        · exact List.mem_cons_of_mem _ hp
      · simp only [dictInsert, if_neg hk]
        rcases List.mem_cons.1 hp with hp | hp
        · exact hp ▸ List.mem_cons_self _ _
        · exact List.mem_cons_of_mem _ (ih hp)

lemma filter_dictInsert_self {κ α : Type} [DecidableEq κ]
    (l : List (κ × α)) (key : κ) (v : α) :
    (l.filter fun p => p.1 = key).length ≤ 1 →
      (dictInsert l key v).filter (fun p => p.1 = key) = [(key, v)] := by
  induction l with
  | nil => intro _; simp [dictInsert]
  | cons kv rest ih =>
      obtain ⟨k, w⟩ := kv
      intro huniq
      by_cases hk : k = key
      · subst hk
        have h1 : ((k, w) :: rest).filter (fun p => p.1 = k) =
            (k, w) :: rest.filter (fun p => p.1 = k) := by
          simp [List.filter_cons]
        rw [h1, List.length_cons] at huniq
        have hlen : (rest.filter (fun p => p.1 = k)).length = 0 := by omega
        have hrest : rest.filter (fun p => p.1 = k) = [] :=
          List.length_eq_zero.1 hlen
        simp [dictInsert, List.filter_cons, hrest]
      · have huniq' : (rest.filter fun p => p.1 = key).length ≤ 1 := by
          simpa [List.filter_cons, hk] using huniq
        simp only [dictInsert, if_neg hk, List.filter_cons]
        simpa [hk] using ih huniq'

lemma filter_dictInsert_other {κ α : Type} [DecidableEq κ]
    (l : List (κ × α)) (key : κ) (v : α) (k0 : κ) (hne : k0 ≠ key) :
    (dictInsert l key v).filter (fun p => p.1 = k0) =
      l.filter (fun p => p.1 = k0) := by
  induction l with
  | nil => simp [dictInsert, List.filter_cons, Ne.symm hne]
  | cons kv rest ih =>
      obtain ⟨k, w⟩ := kv
      by_cases hk : k = key
      · subst hk
        simp [dictInsert, List.filter_cons, Ne.symm hne]
      · simp only [dictInsert, if_neg hk, List.filter_cons]
        by_cases hk0 : k = k0 <;> simp [hk0, ih]

lemma filter_dictInsert_len {κ α : Type} [DecidableEq κ]
    (l : List (κ × α)) (key : κ) (v : α)
    (huniq : ∀ k0, (l.filter fun p => p.1 = k0).length ≤ 1) (k0 : κ) :
    ((dictInsert l key v).filter fun p => p.1 = k0).length ≤ 1 := by
  by_cases hk : k0 = key
  · subst hk
    rw [filter_dictInsert_self l k0 v (huniq k0)]
    simp
  · rw [filter_dictInsert_other l key v k0 hk]
    exact huniq k0

/-- Metadata extraction as a `filterMap` over the row. -/
lemma get_host_data_filterMap (data : Row) :
    _get_host_data data =
      data.filterMap (fun kv =>
        if kv.1 ∉ no_data_fields ∧ strContains kv.1 netmiko_prefix = false then
          some (kv.1, if _empty kv.2 then RawValue.none_ else kv.2)
        else none) := by
  induction data with
  | nil => rfl
  | cons kv rest ih =>
      obtain ⟨k, v⟩ := kv
      by_cases hk : k ∉ no_data_fields ∧ strContains k netmiko_prefix = false
      · simp [_get_host_data, List.filterMap_cons, hk, ih]
      · simp [_get_host_data, List.filterMap_cons, hk, ih]

lemma hostObj_fields {data : Row} {h : Host} :
    _get_host_obj data = .ok h →
      h.name = coerceName (rowGetD data "name" .none_) ∧
      h.hostname = coerceStrField (rowGetD data "hostname" .none_) ∧
      h.username = coerceStrField (rowGetD data "username" .none_) ∧
      h.password = coerceStrField (rowGetD data "password" .none_) ∧
      h.platform = coerceStrField (rowGetD data "platform" .none_) ∧
      coercePort (rowGetD data "port" (.int 22)) = .ok h.port ∧
      h.data = _get_host_data data ∧
      _get_host_netmiko_options data = .ok h.connection_options := by
  intro hok
  unfold _get_host_obj at hok
  cases hp : coercePort (rowGetD data "port" (.int 22)) with
  | error e =>
      rw [hp] at hok
      simp [Bind.bind, Except.bind] at hok
  | ok p =>
      cases hco : _get_host_netmiko_options data with
      | error e =>
          rw [hp, hco] at hok
          simp [Bind.bind, Except.bind] at hok
      | ok co =>
          rw [hp, hco] at hok
          simp only [Bind.bind, Except.bind, Pure.pure, Except.pure,
            Except.ok.injEq] at hok
          subst hok
          exact ⟨rfl, rfl, rfl, rfl, rfl, rfl, rfl, rfl⟩

lemma exists_key_dictInsert_self {κ α : Type} [DecidableEq κ]
    (l : List (κ × α)) (key : κ) (v : α) :
    ∃ w, (key, w) ∈ dictInsert l key v :=
  ⟨v, self_mem_dictInsert l key v⟩

lemma exists_key_dictInsert_of {κ α : Type} [DecidableEq κ]
    (l : List (κ × α)) (key : κ) (v : α) (k0 : κ)
    (h : ∃ w, (k0, w) ∈ l) : ∃ w, (k0, w) ∈ dictInsert l key v := by
  by_cases hk : k0 = key
  · exact hk ▸ exists_key_dictInsert_self l key v
  · obtain ⟨w, hw⟩ := h
    exact ⟨w, mem_dictInsert_of_mem l key v (k0, w) hk hw⟩

lemma mem_get_host_data {data : Row} {k : String} {w : RawValue} :
    (k, w) ∈ _get_host_data data →
      k ∉ no_data_fields ∧ strContains k netmiko_prefix = false := by
  induction data with
  | nil => intro hm; cases hm
  | cons kv rest ih =>
      obtain ⟨k', v'⟩ := kv
      intro hm
      by_cases hk : k' ∉ no_data_fields ∧ strContains k' netmiko_prefix = false
      · simp only [_get_host_data, if_pos hk] at hm
        rcases List.mem_cons.1 hm with hm | hm
        · injection hm with h1 h2
          subst h1
          exact hk
        · exact ih hm
      · simp only [_get_host_data, if_neg hk] at hm
        exact ih hm

lemma netmikoGo_key_preserved (data : Row) :
    ∀ (acc es : List (String × RawValue)) (k0 : String),
      (∃ w, (k0, w) ∈ acc) → netmikoExtraOptsGo acc data = .ok es →
      ∃ w, (k0, w) ∈ es := by
  induction data with
  | nil =>
      intro acc es k0 hw hok
      simp only [netmikoExtraOptsGo, Except.ok.injEq] at hok
      exact hok ▸ hw
  | cons kv rest ih =>
      obtain ⟨k, v⟩ := kv
      intro acc es k0 hw hok
      simp only [netmikoExtraOptsGo] at hok
      split at hok
      · split at hok
        · split at hok
          · cases hok
          · exact ih _ es k0 (exists_key_dictInsert_of _ _ _ _ hw) hok
        · split at hok
          · exact ih _ es k0 (exists_key_dictInsert_of _ _ _ _ hw) hok
          · exact ih _ es k0 (exists_key_dictInsert_of _ _ _ _ hw) hok
      · exact ih _ es k0 hw hok

lemma netmikoGo_mem_key (data : Row) (k : String) (v : RawValue) :
    (k, v) ∈ data → strContains k netmiko_prefix = true →
    ∀ (acc es : List (String × RawValue)),
      netmikoExtraOptsGo acc data = .ok es →
      ∃ w, (strReplace k netmiko_prefix "", w) ∈ es := by
  induction data with
  | nil => intro hm; cases hm
  | cons kv rest ih =>
      obtain ⟨k', v'⟩ := kv
      intro hm hpre acc es hok
      rcases List.mem_cons.1 hm with hm | hm
      · injection hm with h1 h2
        subst h1; subst h2
        simp only [netmikoExtraOptsGo, hpre, if_true] at hok
        split at hok
        · split at hok
          · cases hok
          · exact netmikoGo_key_preserved rest _ es _
              (exists_key_dictInsert_self _ _ _) hok
        · split at hok
          · exact netmikoGo_key_preserved rest _ es _
              (exists_key_dictInsert_self _ _ _) hok
          · exact netmikoGo_key_preserved rest _ es _
              (exists_key_dictInsert_self _ _ _) hok
      · simp only [netmikoExtraOptsGo] at hok
        split at hok
        · split at hok
          · split at hok
            · cases hok
            · exact ih hm hpre _ es hok
          · split at hok
            · exact ih hm hpre _ es hok
            · exact ih hm hpre _ es hok
        · exact ih hm hpre _ es hok

lemma loadGo_empty_name_not_ok (v : RawValue) (r : Row)
    (hname : rowGet? r "name" = some v) (hemp : _empty v = true) :
    ∀ (pre post : List Row) (acc : List (RawValue × Host))
      (hs : List (RawValue × Host)),
      loadGo (pre ++ r :: post) acc ≠ .ok hs := by
  intro pre
  induction pre with
  | nil =>
      intro post acc hs hok
      rw [List.nil_append] at hok
      simp [loadGo, hname, hemp] at hok
  | cons r0 pre' ih =>
      intro post acc hs hok
      rw [List.cons_append] at hok
      simp only [loadGo] at hok
      split at hok
      · cases hok
      · split at hok
        · split at hok
          · cases hok
          · exact ih post _ hs hok
        · cases hok

lemma loadGo_invariant (P : RawValue × Host → Prop)
    (hP : ∀ r nv h, rowGet? r "name" = some nv → _empty nv = false →
      _get_host_obj r = .ok h → P (nv, h)) :
    ∀ (rows : List Row) (acc hs : List (RawValue × Host)),
      (∀ p ∈ acc, P p) → loadGo rows acc = .ok hs → ∀ p ∈ hs, P p := by
  intro rows
  induction rows with
  | nil =>
      intro acc hs hacc hok
      simp only [loadGo, Except.ok.injEq] at hok
      exact hok ▸ hacc
  | cons r rest ih =>
      intro acc hs hacc hok
      simp only [loadGo] at hok
      split at hok
      · cases hok
      · rename_i nv hnv
        split at hok
        · rename_i hemp
          split at hok
          · cases hok
          · rename_i h hob
            refine ih _ hs ?_ hok
            intro p hp
            rcases mem_dictInsert _ _ _ _ hp with he | he
            · exact he ▸ hP r nv h hnv hemp hob
            · exact hacc p he
        · cases hok

lemma loadGo_append (pre rest : List Row) :
    ∀ acc : List (RawValue × Host), (∀ r ∈ pre, rowOk r) →
      ∃ acc', loadGo (pre ++ rest) acc = loadGo rest acc' := by
  induction pre with
  | nil => intro acc _; exact ⟨acc, rfl⟩
  | cons r pre' ih =>
      intro acc hpre
      obtain ⟨nv, h, hnv, hemp, hob⟩ := hpre r (List.mem_cons_self _ _)
      have hstep : loadGo ((r :: pre') ++ rest) acc =
          loadGo (pre' ++ rest) (dictInsert acc nv h) := by
        rw [List.cons_append]
        simp only [loadGo, hnv, if_pos hemp, hob]
      rw [hstep]
      exact ih _ (fun r' hr' => hpre r' (List.mem_cons_of_mem _ hr'))

lemma loadGo_filter_none (nv : RawValue) :
    ∀ (rows : List Row) (acc hs : List (RawValue × Host)),
      loadGo rows acc = .ok hs →
      (rows.filter fun r' => rowGet? r' "name" = some nv) = [] →
      (hs.filter fun p => p.1 = nv) = (acc.filter fun p => p.1 = nv) := by
  intro rows
  induction rows with
  | nil =>
      intro acc hs hok _
      simp only [loadGo, Except.ok.injEq] at hok
      exact hok ▸ rfl
  | cons r rest ih =>
      intro acc hs hok hfil
      simp only [List.filter_cons] at hfil
      by_cases hpred : rowGet? r "name" = some nv
      · simp [hpred] at hfil
      · simp only [hpred, decide_False, if_false] at hfil
        simp only [loadGo] at hok
        split at hok
        · cases hok
        · rename_i nv' hnv
          split at hok
          · split at hok
            · cases hok
            · rename_i h hob
              have hne : nv ≠ nv' := fun he => hpred (he ▸ hnv)
              rw [ih _ hs hok hfil,
                filter_dictInsert_other acc nv' h nv hne]
          · cases hok

lemma loadGo_filter_last (nv : RawValue) :
    ∀ (rows : List Row) (acc hs : List (RawValue × Host)) (r : Row),
      (∀ k0, (acc.filter fun p => p.1 = k0).length ≤ 1) →
      loadGo rows acc = .ok hs →
      (rows.filter fun r' => rowGet? r' "name" = some nv).getLast? = some r →
      ∃ h, _get_host_obj r = .ok h ∧
        (hs.filter fun p => p.1 = nv) = [(nv, h)] := by
  intro rows
  induction rows with
  | nil => intro acc hs r _ _ hlast; cases hlast
  | cons r0 rest ih =>
      intro acc hs r huniq hok hlast
      simp only [loadGo] at hok
      split at hok
      · cases hok
      · rename_i nv0 hnv
        split at hok
        · split at hok
          · cases hok
          · rename_i h0 hob
            have huniq' :
                ∀ k0, (((dictInsert acc nv0 h0).filter
                  fun p => p.1 = k0)).length ≤ 1 :=
              filter_dictInsert_len acc nv0 h0 huniq
            by_cases hpred : rowGet? r0 "name" = some nv
            · have hnveq : nv0 = nv := by
                rw [hnv] at hpred
                exact Option.some.inj hpred
              subst hnveq
              rw [List.filter_cons, if_pos (by simpa using hpred)] at hlast
              cases hfl : (rest.filter fun r' =>
                  rowGet? r' "name" = some nv0) with
              | nil =>
                  rw [hfl, List.getLast?_singleton] at hlast
                  have hr0 : r = r0 := (Option.some.inj hlast).symm
                  subst hr0
                  refine ⟨h0, hob, ?_⟩
                  rw [loadGo_filter_none nv0 rest _ hs hok hfl]
                  exact filter_dictInsert_self acc nv0 h0 (huniq nv0)
              | cons a l =>
                  rw [hfl, List.getLast?_cons_cons] at hlast
                  exact ih _ hs r huniq' hok (hfl ▸ hlast)
            · rw [List.filter_cons, if_neg (by simpa using hpred)] at hlast
              exact ih _ hs r huniq' hok hlast
        · cases hok

lemma coerceStrField_eq (v : RawValue) :
    coerceStrField v =
      if truthy v then
        (if _empty v then RawValue.none_ else .str (pyStr v))
      else v := by
  unfold coerceStrField
  by_cases ht : truthy v <;> by_cases he : _empty v <;> simp [ht, he]

lemma coercePort_cases {v p : RawValue} (h : coercePort v = .ok p) :
    (truthy v = false → p = v) ∧
    (truthy v = true → _empty v = true → p = RawValue.none_) ∧
    (∀ n, truthy v = true → _empty v = false → pyInt v = some n →
      p = RawValue.int n) := by
  unfold coercePort at h
  refine ⟨?_, ?_, ?_⟩
  · intro ht
    rw [ht] at h
    simp at h
    exact h.symm
  · intro ht he
    rw [ht, he] at h
    simp at h
    exact h.symm
  · intro n ht he hn
    rw [ht, he, hn] at h
    simp at h
    exact h.symm

lemma load_ok_hosts {rows : List Row} {inv : Inventory}
    (hok : load rows = .ok inv) : loadGo rows [] = .ok inv.hosts := by
  unfold load at hok
  cases hlg : loadGo rows [] with
  | error e => rw [hlg] at hok; simp [Except.map] at hok
  | ok hs =>
      rw [hlg] at hok
      simp only [Except.map, Except.ok.injEq] at hok
      rw [← hok]

/-! ## Claims -/

/-- Claim C1: a row sequence containing a row whose `name` value is empty
(absent marker, NaN, or empty string) never yields an inventory — no
Host Record is produced for that row or any later row — and once the
rows before it have processed, `load` raises immediately at that row,
the error carrying the row's full raw content (the logged payload).
-/
theorem C1_empty_name_aborts_load (pre : List Row) (r : Row)
    (post : List Row) (v : RawValue)
    (hname : rowGet? r "name" = some v) (hemp : _empty v = true) :
    (∀ inv, load (pre ++ r :: post) ≠ .ok inv) ∧
    ((∀ r' ∈ pre, rowOk r') →
      load (pre ++ r :: post) = .error (.hostNameEmpty r)) := by
  constructor
  · intro inv hok
    exact loadGo_empty_name_not_ok v r hname hemp pre post [] inv.hosts
      (load_ok_hosts hok)
  · intro hpre
    obtain ⟨acc', heq⟩ := loadGo_append pre (r :: post) [] hpre
    have hstep : loadGo (r :: post) acc' = .error (.hostNameEmpty r) := by
      simp [loadGo, hname, hemp]
    unfold load
    rw [heq, hstep]
    rfl

theorem C1_empty_name_aborts_load_witness :
    (∀ inv, load ([[("name", RawValue.str "R1")]] ++
        [("name", RawValue.str "")] :: [[("name", RawValue.str "R9")]]) ≠
      .ok inv) ∧
    ((∀ r' ∈ [[("name", RawValue.str "R1")]], rowOk r') →
      load ([[("name", RawValue.str "R1")]] ++
          [("name", RawValue.str "")] :: [[("name", RawValue.str "R9")]]) =
        .error (.hostNameEmpty [("name", RawValue.str "")])) :=
  C1_empty_name_aborts_load [[("name", RawValue.str "R1")]]
    [("name", RawValue.str "")] [[("name", RawValue.str "R9")]]
    (RawValue.str "") (by decide) (by decide)

/-- Claim C8: the emptiness predicate holds exactly for the absence marker, the
float NaN sentinel and the empty string; in particular it is false for
the number zero, boolean false and every non-empty string.
-/
theorem C8_empty_iff (v : RawValue) :
    _empty v = true ↔
      (v = RawValue.none_ ∨ v = RawValue.nan ∨ v = RawValue.str "") := by
  cases v <;> simp [_empty]

/-- Claim C9: the CSV constructor parses the rows but never stores them (the
base-class initializer is not invoked), so the object lacks the
`hosts_list` attribute and every subsequent `load` call fails with an
attribute error instead of producing an inventory.
-/
theorem C9_csv_init_drops_rows (parsedRows : List Row) :
    (CSVInventory_init parsedRows).hosts_list = none ∧
    objLoad (CSVInventory_init parsedRows) = .error .attributeMissing :=
  ⟨rfl, rfl⟩

/-- Claim C6: metadata is exactly the columns outside the six identity fields
whose names do not contain the connection-option prefix, kept under
their verbatim keys in the row's column order; an empty raw value is
stored as the explicit absent marker and a non-empty raw value is
stored unchanged, and no prefixed column appears.
-/
theorem C6_metadata_exact (data : Row) :
    _get_host_data data =
      data.filterMap (fun kv =>
        if kv.1 ∉ no_data_fields ∧
            strContains kv.1 netmiko_prefix = false then
          some (kv.1, if _empty kv.2 then RawValue.none_ else kv.2)
        else none) :=
  get_host_data_filterMap data

/-- Claim C10: a column whose name contains the connection-option prefix anywhere
is excluded from metadata and routed to the connection-option overlay
under the column name with every occurrence of the prefix removed; in
particular `a_netmiko_b` yields the option name `a_b`.
-/
theorem C10_prefix_substring_routing (data : Row) (k : String)
    (v : RawValue) (hmem : (k, v) ∈ data)
    (hpre : strContains k netmiko_prefix = true) :
    (∀ w, (k, w) ∉ _get_host_data data) ∧
    (∀ es, netmikoExtraOpts data = .ok es →
      ∃ w, (strReplace k netmiko_prefix "", w) ∈ es) ∧
    strReplace "a_netmiko_b" netmiko_prefix "" = "a_b" := by
  refine ⟨?_, ?_, by decide⟩
  · intro w hw
    have := (mem_get_host_data hw).2
    rw [hpre] at this
    cases this
  · intro es hok
    exact netmikoGo_mem_key data k v hmem hpre [] es hok

theorem C10_prefix_substring_routing_witness :
    (∀ w, ("a_netmiko_b", w) ∉
      _get_host_data [("a_netmiko_b", RawValue.str "x")]) ∧
    (∀ es, netmikoExtraOpts [("a_netmiko_b", RawValue.str "x")] = .ok es →
      ∃ w, (strReplace "a_netmiko_b" netmiko_prefix "", w) ∈ es) ∧
    strReplace "a_netmiko_b" netmiko_prefix "" = "a_b" :=
  C10_prefix_substring_routing [("a_netmiko_b", RawValue.str "x")]
    "a_netmiko_b" (RawValue.str "x") (by decide) (by decide)

/-- Claim C3 (code bug): the claim says an empty value in an integer-valued (timeout-family)
connection-option column must not raise and must be stored absent; the
code applies `int(v)` on that branch with no emptiness check, so an
empty value (absent marker, NaN, or empty string) raises a coercion
error and the whole load aborts.
-/
theorem C3_int_option_empty_value_raises :
    _empty (RawValue.str "") = true ∧ _empty RawValue.none_ = true ∧
    _empty RawValue.nan = true ∧
    netmikoExtraOpts [("netmiko_timeout", RawValue.str "")] =
      .error .intCoercion ∧
    netmikoExtraOpts [("netmiko_timeout", RawValue.none_)] =
      .error .intCoercion ∧
    netmikoExtraOpts [("netmiko_timeout", RawValue.nan)] =
      .error .intCoercion ∧
    _get_host_netmiko_options [("netmiko_timeout", RawValue.str "")] =
      .error .intCoercion ∧
    _get_host_obj [("name", RawValue.str "R1"),
        ("netmiko_timeout", RawValue.str "")] = .error .intCoercion ∧
    load [[("name", RawValue.str "R1"),
        ("netmiko_timeout", RawValue.str "")]] = .error .intCoercion := by
  decide

/-- Claim C2 counterexample: on the spec's own test row `name="R2", port=""` (with
an empty-string `hostname` added), the raw `port` and `hostname` values
are empty, yet the built record carries the empty string itself — not
the absent marker — because the falsy value skips the guarded coercion.
-/
theorem C2_counterexample_empty_string_not_absent :
    _empty (RawValue.str "") = true ∧
    (_get_host_obj [("name", RawValue.str "R2"), ("port", RawValue.str ""),
      ("hostname", RawValue.str "")]).map Host.port =
        .ok (RawValue.str "") ∧
    (_get_host_obj [("name", RawValue.str "R2"), ("port", RawValue.str ""),
      ("hostname", RawValue.str "")]).map Host.hostname =
        .ok (RawValue.str "") ∧
    RawValue.str "" ≠ RawValue.none_ := by decide

/-- Claim C2 (amended): identity-field coercion sits behind a Python truthiness
guard.  For `hostname`/`username`/`password`/`platform`: a falsy raw
value (absent marker, empty string, zero, false) is passed through
unchanged — so an empty string stays an empty string rather than
becoming absent — while a truthy value becomes absent if empty (NaN)
and the string coercion otherwise.  For `port`: a falsy raw value is
passed through unchanged, a truthy empty value (NaN) becomes absent,
and a truthy non-empty value is integer-coerced.
-/
theorem C2_amended_truthiness_guarded_identity_fields (data : Row)
    (h : Host) (hok : _get_host_obj data = .ok h) :
    (h.hostname =
      if truthy (rowGetD data "hostname" RawValue.none_) then
        (if _empty (rowGetD data "hostname" RawValue.none_) then
          RawValue.none_
         else RawValue.str (pyStr (rowGetD data "hostname" RawValue.none_)))
      else rowGetD data "hostname" RawValue.none_) ∧
    (h.username =
      if truthy (rowGetD data "username" RawValue.none_) then
        (if _empty (rowGetD data "username" RawValue.none_) then
          RawValue.none_
         else RawValue.str (pyStr (rowGetD data "username" RawValue.none_)))
      else rowGetD data "username" RawValue.none_) ∧
    (h.password =
      if truthy (rowGetD data "password" RawValue.none_) then
        (if _empty (rowGetD data "password" RawValue.none_) then
          RawValue.none_
         else RawValue.str (pyStr (rowGetD data "password" RawValue.none_)))
      else rowGetD data "password" RawValue.none_) ∧
    (h.platform =
      if truthy (rowGetD data "platform" RawValue.none_) then
        (if _empty (rowGetD data "platform" RawValue.none_) then
          RawValue.none_
         else RawValue.str (pyStr (rowGetD data "platform" RawValue.none_)))
      else rowGetD data "platform" RawValue.none_) ∧
    (truthy (rowGetD data "port" (RawValue.int 22)) = false →
      h.port = rowGetD data "port" (RawValue.int 22)) ∧
    (truthy (rowGetD data "port" (RawValue.int 22)) = true →
      _empty (rowGetD data "port" (RawValue.int 22)) = true →
      h.port = RawValue.none_) ∧
    (∀ n, truthy (rowGetD data "port" (RawValue.int 22)) = true →
      _empty (rowGetD data "port" (RawValue.int 22)) = false →
      pyInt (rowGetD data "port" (RawValue.int 22)) = some n →
      h.port = RawValue.int n) := by
  obtain ⟨-, hh, hu, hpw, hpl, hp, -, -⟩ := hostObj_fields hok
  have hpc := coercePort_cases hp
  exact ⟨by rw [hh, coerceStrField_eq], by rw [hu, coerceStrField_eq],
    by rw [hpw, coerceStrField_eq], by rw [hpl, coerceStrField_eq],
    hpc.1, hpc.2.1, hpc.2.2⟩

theorem C2_amended_witness :
    _get_host_obj rowR2 = .ok hostR2 ∧
    ((hostR2.hostname =
      if truthy (rowGetD rowR2 "hostname" RawValue.none_) then
        (if _empty (rowGetD rowR2 "hostname" RawValue.none_) then
          RawValue.none_
         else RawValue.str (pyStr (rowGetD rowR2 "hostname" RawValue.none_)))
      else rowGetD rowR2 "hostname" RawValue.none_) ∧
    (hostR2.username =
      if truthy (rowGetD rowR2 "username" RawValue.none_) then
        (if _empty (rowGetD rowR2 "username" RawValue.none_) then
          RawValue.none_
         else RawValue.str (pyStr (rowGetD rowR2 "username" RawValue.none_)))
      else rowGetD rowR2 "username" RawValue.none_) ∧
    (hostR2.password =
      if truthy (rowGetD rowR2 "password" RawValue.none_) then
        (if _empty (rowGetD rowR2 "password" RawValue.none_) then
          RawValue.none_
         else RawValue.str (pyStr (rowGetD rowR2 "password" RawValue.none_)))
      else rowGetD rowR2 "password" RawValue.none_) ∧
    (hostR2.platform =
      if truthy (rowGetD rowR2 "platform" RawValue.none_) then
        (if _empty (rowGetD rowR2 "platform" RawValue.none_) then
          RawValue.none_
         else RawValue.str (pyStr (rowGetD rowR2 "platform" RawValue.none_)))
      else rowGetD rowR2 "platform" RawValue.none_) ∧
    (truthy (rowGetD rowR2 "port" (RawValue.int 22)) = false →
      hostR2.port = rowGetD rowR2 "port" (RawValue.int 22)) ∧
    (truthy (rowGetD rowR2 "port" (RawValue.int 22)) = true →
      _empty (rowGetD rowR2 "port" (RawValue.int 22)) = true →
      hostR2.port = RawValue.none_) ∧
    (∀ n, truthy (rowGetD rowR2 "port" (RawValue.int 22)) = true →
      _empty (rowGetD rowR2 "port" (RawValue.int 22)) = false →
      pyInt (rowGetD rowR2 "port" (RawValue.int 22)) = some n →
      hostR2.port = RawValue.int n)) :=
  ⟨by decide,
   C2_amended_truthiness_guarded_identity_fields rowR2 hostR2 (by decide)⟩

/-- Claim C4 counterexample: a row whose raw `name` is the integer `0` is accepted
by the load (zero is not empty), but the record's `name` field is the
uncoerced integer `0`, not the string coercion `"0"`.
-/
theorem C4_counterexample_falsy_name_not_stringified :
    load [rowName0] = .ok { hosts := [(RawValue.int 0, hostName0)] } ∧
    hostName0.name = RawValue.int 0 ∧
    RawValue.int 0 ≠ RawValue.str (pyStr (RawValue.int 0)) := by decide

/-- Claim C4 (amended): for a row accepted by the load, the record's `name` equals
the string coercion of the raw name only when the raw name is truthy; a
falsy-but-non-empty raw name (zero, false) is stored unchanged.
-/
theorem C4_amended_name_stringified_only_when_truthy (data : Row)
    (v : RawValue) (h : Host) (hv : rowGet? data "name" = some v)
    (_hemp : _empty v = false) (hok : _get_host_obj data = .ok h) :
    h.name = if truthy v then RawValue.str (pyStr v) else v := by
  obtain ⟨hn, -, -, -, -, -, -, -⟩ := hostObj_fields hok
  rw [hn]
  simp [rowGetD, hv, coerceName]

theorem C4_amended_witness :
    rowGet? rowName0 "name" = some (RawValue.int 0) ∧
    _empty (RawValue.int 0) = false ∧
    _get_host_obj rowName0 = .ok hostName0 ∧
    hostName0.name = (if truthy (RawValue.int 0) then
      RawValue.str (pyStr (RawValue.int 0)) else RawValue.int 0) :=
  ⟨by decide, by decide, by decide,
   C4_amended_name_stringified_only_when_truthy rowName0 (RawValue.int 0)
     hostName0 (by decide) (by decide) (by decide)⟩

/-- Claim C5 counterexample: a row whose raw `name` is the integer `5` is stored
under the raw key `5`, while the record's `name` field is the string
`"5"` — the storage key does not equal the record's name field for
non-string raw names.
-/
theorem C5_counterexample_nonstring_key_differs_from_name_field :
    load [[("name", RawValue.int 5)]] =
      .ok { hosts := [(RawValue.int 5,
        { name := RawValue.str "5", hostname := RawValue.none_,
          port := RawValue.int 22, username := RawValue.none_,
          password := RawValue.none_, platform := RawValue.none_,
          data := [], connection_options := [] })] } ∧
    RawValue.int 5 ≠ RawValue.str "5" := by decide

/-- Claim C5 (amended): every accepted row's record is stored under the raw
(uncoerced) `name` value; the stored key is never empty, the record's
`name` field is the truthiness-guarded string coercion of the key, and
key and name field coincide exactly when the raw name is a string or a
falsy value (zero, false) — for a truthy non-string raw name the name
field is the string coercion and differs from the key.
-/
theorem C5_amended_stored_key_is_raw_name (rows : List Row)
    (inv : Inventory) (hok : load rows = .ok inv) :
    ∀ p ∈ inv.hosts, _empty p.1 = false ∧
      p.2.name = (if truthy p.1 then RawValue.str (pyStr p.1) else p.1) ∧
      (p.2.name = p.1 ↔
        (∃ s, p.1 = RawValue.str s) ∨ truthy p.1 = false) := by
  have hgo := load_ok_hosts hok
  refine loadGo_invariant _ ?_ rows [] inv.hosts ?_ hgo
  · intro r nv h hnv hemp hob
    obtain ⟨hn, -, -, -, -, -, -, -⟩ := hostObj_fields hob
    have hname : h.name =
        if truthy nv then RawValue.str (pyStr nv) else nv := by
      rw [hn]
      simp [rowGetD, hnv, coerceName]
    refine ⟨hemp, hname, ?_⟩
    cases ht : truthy nv with
    | false =>
        rw [ht, if_neg (by simp)] at hname
        exact ⟨fun _ => Or.inr rfl, fun _ => hname⟩
    | true =>
        rw [ht, if_pos rfl] at hname
        constructor
        · intro he
          exact Or.inl ⟨pyStr nv, (hname ▸ he).symm⟩
        · rintro (⟨s, hs⟩ | hf)
          · subst hs
            exact hname ▸ rfl
          · exact absurd hf (by simp [ht])
  · intro p hp
    exact absurd hp (List.not_mem_nil p)

theorem C5_amended_witness :
    load [rowR1s, rowName0] =
      .ok { hosts := [(RawValue.str "R1", hostR1s),
                      (RawValue.int 0, hostName0)] } ∧
    (_empty (RawValue.int 0) = false ∧
      hostName0.name = (if truthy (RawValue.int 0) then
        RawValue.str (pyStr (RawValue.int 0)) else RawValue.int 0) ∧
      (hostName0.name = RawValue.int 0 ↔
        (∃ s, RawValue.int 0 = RawValue.str s) ∨
          truthy (RawValue.int 0) = false)) :=
  ⟨by decide,
   C5_amended_stored_key_is_raw_name [rowR1s, rowName0]
     { hosts := [(RawValue.str "R1", hostR1s),
                 (RawValue.int 0, hostName0)] } (by decide)
     (RawValue.int 0, hostName0) (by decide)⟩

/-- Claim C7: when the load succeeds, for every name value the inventory holds
exactly one entry under that name, and it is the record derived from
the latest row in sequence order carrying that name — later duplicates
silently overwrite earlier ones.
-/
theorem C7_duplicate_names_last_wins (rows : List Row) (inv : Inventory)
    (hok : load rows = .ok inv) (nv : RawValue) (r : Row)
    (hlast : (rows.filter fun r' =>
      rowGet? r' "name" = some nv).getLast? = some r) :
    ∃ h, _get_host_obj r = .ok h ∧
      (inv.hosts.filter fun p => p.1 = nv) = [(nv, h)] := by
  have hgo := load_ok_hosts hok
  exact loadGo_filter_last nv rows [] inv.hosts r (fun k0 => by simp)
    hgo hlast

theorem C7_duplicate_names_last_wins_witness :
    load [rowDupA, rowDupB] =
      .ok { hosts := [(RawValue.str "R1", hostDupB)] } ∧
    ([rowDupA, rowDupB].filter fun r' =>
      rowGet? r' "name" = some (RawValue.str "R1")).getLast? =
        some rowDupB ∧
    (∃ h, _get_host_obj rowDupB = .ok h ∧
      ([(RawValue.str "R1", hostDupB)].filter fun p =>
        p.1 = RawValue.str "R1") = [(RawValue.str "R1", h)]) :=
  ⟨by decide, by decide,
   C7_duplicate_names_last_wins [rowDupA, rowDupB]
     { hosts := [(RawValue.str "R1", hostDupB)] } (by decide)
     (RawValue.str "R1") rowDupB (by decide)⟩

end TableInv
